import Mathlib

/-!
Verification of the AURORA safety harness (repository `raphaelmichael/AURORA`,
authoritative modules under `src/aurora/`): the AST-based code validator
(`validation.py`), the configuration manager (`config.py`), the backup manager
(`backup.py`), the resource monitor (`monitoring.py`) and the evolution
supervisor loop (`core.py`).

The Python code is shallowly embedded: candidate source text is represented by
its parse outcome (a Python `ast` tree or a syntax error), file-system and
logging side effects of the supervisor are represented by explicit effect
traces, and numeric metrics use `ℚ`.  Each definition mirrors the control flow
of the named Python function.
-/

namespace Aurora

/-! ## Python AST embedding

The fragment of the Python `ast` node language that `CodeValidator`
(`src/aurora/validation.py`) inspects: `Call` with a `Name` or `Attribute`
callee, `Import` / `ImportFrom`, expression statements (`Expr`), assignments,
`FunctionDef` and `ClassDef` (the latter two carry nested statement bodies,
which `ast.walk` traverses). -/

inductive PyExpr where
  | name (id : String)
  | attribute (value : PyExpr) (attr : String)
  | call (func : PyExpr) (args : List PyExpr)
  | constant
deriving Repr

inductive PyStmt where
  | exprStmt (value : PyExpr)
  | assign (target : String) (value : PyExpr)
  | functionDef (name : String) (body : List PyStmt)
  | classDef (name : String) (body : List PyStmt)
  | importStmt (names : List String)
  | importFrom (module : Option String)
deriving Repr

/-- A Python module is a list of top-level statements. -/
abbrev PyModule := List PyStmt

/-- A uniform view of AST nodes, as enumerated by `ast.walk`. -/
inductive PyNode where
  | module (body : PyModule)
  | stmt (s : PyStmt)
  | expr (e : PyExpr)
deriving Repr

/-- Source text is represented by its parse outcome: `ast.parse` either raises
a `SyntaxError` (carrying a message) or yields a tree.  Parsing is
deterministic, so the two `ast.parse` calls in `validate_code` agree. -/
abbrev PySource := Except String PyModule

mutual

/-- All nodes of an expression subtree (the node itself plus descendants). -/
def PyExpr.walkNodes : PyExpr → List PyNode
  | .name i => [.expr (.name i)]
  | .attribute v a => .expr (.attribute v a) :: v.walkNodes
  | .call f args => .expr (.call f args) :: (f.walkNodes ++ walkExprList args)
  | .constant => [.expr .constant]

def walkExprList : List PyExpr → List PyNode
  | [] => []
  | e :: es => e.walkNodes ++ walkExprList es

end

mutual

/-- All nodes of a statement subtree. -/
def PyStmt.walkNodes : PyStmt → List PyNode
  | .exprStmt v => .stmt (.exprStmt v) :: v.walkNodes
  | .assign t v => .stmt (.assign t v) :: v.walkNodes
  | .functionDef n body => .stmt (.functionDef n body) :: walkStmtList body
  | .classDef n body => .stmt (.classDef n body) :: walkStmtList body
  | .importStmt ns => [.stmt (.importStmt ns)]
  | .importFrom m => [.stmt (.importFrom m)]

def walkStmtList : List PyStmt → List PyNode
  | [] => []
  | s :: ss => s.walkNodes ++ walkStmtList ss

end

/-- `ast.walk(tree)`: every node of the module.  (`ast.walk` enumerates
breadth-first; the validator only aggregates per-node error lists, so only the
multiset of visited nodes matters and a depth-first enumeration is used.) -/
def moduleWalk (m : PyModule) : List PyNode :=
  .module m :: walkStmtList m

/-! ## CodeValidator (`src/aurora/validation.py`) -/

/-- `CodeValidator.dangerous_imports` (validation.py lines 24-27). -/
def dangerousImports : List String :=
  ["os.system", "subprocess", "eval", "exec", "compile",
   "__import__", "open", "file", "input", "raw_input"]

/-- `CodeValidator.dangerous_functions` (validation.py lines 29-32). -/
def dangerousFunctions : List String :=
  ["eval", "exec", "compile", "globals", "locals", "vars",
   "dir", "getattr", "setattr", "delattr", "hasattr"]

/-- `dangerous_modules` inside `CodeValidator._is_dangerous_import`
(validation.py lines 138-141). -/
def dangerousModules : List String :=
  ["os", "sys", "subprocess", "importlib", "__builtin__", "builtins",
   "ctypes", "marshal", "pickle", "shelve", "tempfile"]

/-- `CodeValidator._get_full_name` (validation.py lines 126-134). -/
def getFullName : PyExpr → String
  | .name i => i
  | .attribute v a => getFullName v ++ "." ++ a
  | _ => "unknown"

/-- `CodeValidator._is_dangerous_import` (validation.py lines 136-148):
the module itself or a parent package is on the dangerous-modules list. -/
def isDangerousImport (moduleName : String) : Bool :=
  dangerousModules.any (fun d => moduleName == d || (d ++ ".").isPrefixOf moduleName)

/-- `CodeValidator._analyze_node` (validation.py lines 91-124).  The four
`if`/`elif` branches are mutually exclusive by node type, exactly as in the
source: a `Call` node, an `Import`, an `ImportFrom`, or an `Expr` statement
wrapping a call to `exec`/`eval`.  A node of any other shape contributes no
error (and nothing is raised). -/
def analyzeNode : PyNode → List String
  | .expr (.call f _) =>
    match f with
    | .name funcName =>
      if funcName ∈ dangerousFunctions then
        ["Dangerous function call: " ++ funcName]
      else []
    | .attribute v a =>
      let attrName := getFullName (.attribute v a)
      if attrName ∈ dangerousImports then
        ["Dangerous function call: " ++ attrName]
      else []
    | _ => []
  | .stmt (.importStmt names) =>
    names.flatMap (fun n =>
      if isDangerousImport n then ["Potentially dangerous import: " ++ n] else [])
  | .stmt (.importFrom mod) =>
    match mod with
    | some m =>
      if isDangerousImport m then ["Potentially dangerous import: from " ++ m] else []
    | none => []
  | .stmt (.exprStmt (.call (.name funcName) _)) =>
    if funcName == "exec" || funcName == "eval" then
      ["Dynamic code execution: " ++ funcName]
    else []
  | _ => []

/-- `CodeValidator._check_syntax` (validation.py lines 59-71): parse failure
yields exactly one error string carrying the parser's message. -/
def checkSyntax (src : PySource) : Bool × List String :=
  match src with
  | .ok _ => (true, [])
  | .error msg => (false, ["Syntax error: " ++ msg])

/-- `CodeValidator._check_ast_safety` (validation.py lines 73-89): walk every
node, concatenate the per-node error lists; valid iff no error.  If the source
does not parse, the caught exception yields one "AST analysis error" string. -/
def checkAstSafety (src : PySource) : Bool × List String :=
  match src with
  | .error msg => (false, ["AST analysis error: " ++ msg])
  | .ok m =>
    let errors := (moduleWalk m).flatMap analyzeNode
    (errors.isEmpty, errors)

/-- The `validation` section consumed by `CodeValidator.__init__`
(validation.py lines 16-21); all three flags default to `True`. -/
structure ValidationConfig where
  enabled : Bool := true
  astCheck : Bool := true
  syntaxCheck : Bool := true
deriving Repr

/-- `CodeValidator.validate_code` (validation.py lines 34-57): short-circuit
`(True, [])` when validation is disabled; otherwise the syntax check runs
first and returns early on failure; otherwise the AST safety check runs. -/
def validateCode (cfg : ValidationConfig) (src : PySource) : Bool × List String :=
  if !cfg.enabled then (true, [])
  else
    match (if cfg.syntaxCheck then checkSyntax src else (true, [])) with
    | (false, syntaxErrors) => (false, syntaxErrors)
    | (true, _) =>
      if cfg.astCheck then checkAstSafety src
      else (true, [])

/-- `critical_functions` inside `CodeValidator.validate_evolution_code`
(validation.py line 185). -/
def criticalFunctions : List String := ["evolve", "run", "awaken"]

/-- `CodeValidator._extract_function_names` (validation.py lines 198-204):
collects the name of every `FunctionDef` found by `ast.walk` — at any nesting
depth, including functions nested inside functions or classes. -/
def extractFunctionNames (m : PyModule) : List String :=
  (moduleWalk m).flatMap (fun n =>
    match n with
    | .stmt (.functionDef name _) => [name]
    | _ => [])

/-- The error message appended when critical functions disappear
(validation.py line 189); the set is rendered as a comma-separated list. -/
def criticalRemovedMsg (removed : List String) : String :=
  "Critical functions removed: " ++ String.intercalate ", " removed

/-- `CodeValidator.validate_evolution_code` (validation.py lines 167-196):
validate the new code; if valid, parse both sources (a parse failure of either
is caught and reported as an evolution validation error — the old source is
parsed first), extract all function names from each tree, and append one error
listing the critical functions present in the old tree but absent from the
new one. -/
def validateEvolutionCode (cfg : ValidationConfig) (oldSrc newSrc : PySource) :
    Bool × List String :=
  match validateCode cfg newSrc with
  | (false, errors) => (false, errors)
  | (true, errors) =>
    match oldSrc, newSrc with
    | .ok oldTree, .ok newTree =>
      let oldFunctions := extractFunctionNames oldTree
      let newFunctions := extractFunctionNames newTree
      let removedCritical := criticalFunctions.filter
        (fun c => oldFunctions.contains c && !(newFunctions.contains c))
      let errors :=
        if removedCritical.isEmpty then errors
        else errors ++ [criticalRemovedMsg removedCritical]
      (errors.isEmpty, errors)
    | .error e, _ => (false, ["Evolution validation error: " ++ e])
    | _, .error e => (false, ["Evolution validation error: " ++ e])

/-- A call node whose target name (for a `Name` callee) or dotted attribute
chain (for an `Attribute` callee) is on the validator's deny-list: the
"deny-list match" notion of the specification. -/
def isDenyListedCall : PyNode → Bool
  | .expr (.call (.name funcName) _) => funcName ∈ dangerousFunctions
  | .expr (.call (.attribute v a) _) => getFullName (.attribute v a) ∈ dangerousImports
  | _ => false

/-- Number of deny-listed calls in a module. -/
def denyListedCallCount (m : PyModule) : Nat :=
  (moduleWalk m).countP (fun n => isDenyListedCall n)

/-! ## ConfigManager (`src/aurora/config.py`)

Configuration values are the YAML/JSON value universe the manager traverses:
scalar strings, numbers (ℚ, covering the source's ints and floats), booleans,
null, mappings and sequences. -/

inductive ConfigValue where
  | str (s : String)
  | num (q : ℚ)
  | bool (b : Bool)
  | null
  | dict (entries : List (String × ConfigValue))
  | list (items : List ConfigValue)
deriving Repr

/-- The process environment, as queried by `os.getenv`. -/
abbrev Env := String → Option String

/-- `obj.startswith("${") and obj.endswith("}")` (config.py line 58): the
guard selecting scalar strings of the form `${...}`. -/
def isEnvForm (s : String) : Bool :=
  decide (s.data.take 2 = ['$', '{']) && decide (s.data.getLast? = some '}')

/-- `obj[2:-1]` (config.py line 59): the candidate environment-variable name,
the string with its first two and last characters removed. -/
def envNameOf (s : String) : String :=
  ⟨(s.data.drop 2).dropLast⟩

/-- The scalar-string case of `_expand_env_vars` (config.py lines 58-60):
`os.getenv(env_var, obj)` — the environment value if set, else the string
unchanged. -/
def expandScalar (env : Env) (s : String) : String :=
  if isEnvForm s then (env (envNameOf s)).getD s else s

mutual

/-- `ConfigManager._expand_env_vars` (config.py lines 52-61): recursive
expansion through mappings (values only — keys are untouched) and sequences;
scalar strings of the form `${NAME}` are replaced via `os.getenv`; every other
value is returned unchanged. -/
def expandEnvVars (env : Env) : ConfigValue → ConfigValue
  | .dict entries => .dict (expandEnvEntries env entries)
  | .list items => .list (expandEnvItems env items)
  | .str s => .str (expandScalar env s)
  | .num q => .num q
  | .bool b => .bool b
  | .null => .null

def expandEnvEntries (env : Env) :
    List (String × ConfigValue) → List (String × ConfigValue)
  | [] => []
  | (k, v) :: rest => (k, expandEnvVars env v) :: expandEnvEntries env rest

def expandEnvItems (env : Env) : List ConfigValue → List ConfigValue
  | [] => []
  | v :: rest => expandEnvVars env v :: expandEnvItems env rest

end

/-- One step `value = value[k]` of the traversal in `ConfigManager.get`
(config.py line 71): succeeds only on a mapping containing the key; on a
missing key (`KeyError`) or any non-mapping value (`TypeError`) the Python
code raises, which `get` catches. -/
def lookupKey (v : ConfigValue) (k : String) : Option ConfigValue :=
  match v with
  | .dict entries => entries.lookup k
  | _ => none

/-- The `for k in keys: value = value[k]` loop of `ConfigManager.get`
(config.py lines 70-72), with the first failing step short-circuiting to
`none` (the caught `KeyError`/`TypeError`). -/
def getPath : List String → ConfigValue → Option ConfigValue
  | [], v => some v
  | k :: ks, v =>
    match lookupKey v k with
    | some v2 => getPath ks v2
    | none => none

/-- Accumulator worker for `key.split('.')`: `acc` holds the current segment
reversed. -/
def splitDotAux : List Char → List Char → List String
  | [], acc => [⟨acc.reverse⟩]
  | c :: cs, acc =>
    if c = '.' then ⟨acc.reverse⟩ :: splitDotAux cs []
    else splitDotAux cs (c :: acc)

/-- `key.split('.')` (config.py line 66): split the key at every `'.'`
character, faithful to Python `str.split` with a one-character separator
(the empty key yields `[""]`, a trailing dot yields a trailing `""`). -/
def splitDot (s : String) : List String :=
  splitDotAux s.data []

/-- `ConfigManager.get` (config.py lines 63-74): split the key on `'.'`,
traverse sequentially, and return the caller's default when the traversal
fails.  Total — the Python `except (KeyError, TypeError)` is the `none`
branch; no other exception can escape the loop. -/
def configGet (config : ConfigValue) (key : String) (default : ConfigValue) :
    ConfigValue :=
  match getPath (splitDot key) config with
  | some v => v
  | none => default

/-- The outcome of opening and parsing the configuration file in
`ConfigManager.load_config` (config.py lines 29-50): the file may be missing,
may fail to parse, or yields a value. -/
inductive LoadOutcome where
  | missing
  | parseError (msg : String)
  | parsed (v : ConfigValue)

/-- `ConfigManager._get_default_config` (config.py lines 133-183), the
built-in fallback configuration. -/
def defaultConfig : ConfigValue :=
  .dict [("aurora", .dict
    [("name", .str "Aurora"),
     ("version", .str "2.0"),
     ("logging", .dict
       [("level", .str "INFO"), ("format", .str "json"),
        ("file", .str "logs/aurora.log"), ("max_size", .str "10MB"),
        ("backup_count", .num 5), ("rotation", .bool true)]),
     ("files", .dict
       [("memory", .str "data/aurora_memory.json"),
        ("consciousness", .str "data/aurora_consciousness.py"),
        ("code", .str "data/aurora_self_writing.py"),
        ("backup_dir", .str "backups")]),
     ("execution", .dict
       [("cycle_interval", .num 2), ("consciousness_lines", .num 1000000),
        ("max_comments", .num 50), ("api_timeout", .num 5)]),
     ("monitoring", .dict
       [("cpu_threshold", .num 80), ("memory_threshold", .num 80),
        ("disk_threshold", .num 90), ("check_interval", .num 30)]),
     ("backup", .dict
       [("enabled", .bool true), ("before_evolution", .bool true),
        ("max_backups", .num 10), ("compression", .bool true)]),
     ("validation", .dict
       [("enabled", .bool true), ("ast_check", .bool true),
        ("syntax_check", .bool true)]),
     ("anomaly_detection", .dict
       [("enabled", .bool true), ("cycle_time_threshold", .num 10),
        ("memory_growth_threshold", .num 50),
        ("error_rate_threshold", .num (1 / 10))])])]

/-- `ConfigManager.load_config` (config.py lines 29-50): a missing file falls
back to the defaults; any load/parse exception is caught and also falls back
to the defaults; a successful parse is env-expanded once, at load time. -/
def loadConfig (env : Env) : LoadOutcome → ConfigValue
  | .missing => defaultConfig
  | .parseError _ => defaultConfig
  | .parsed v => expandEnvVars env v

/-! ## ResourceMonitor (`src/aurora/monitoring.py`) -/

/-- The `monitoring` configuration section read by `ResourceMonitor.__init__`
(monitoring.py lines 23-26), with the source defaults. -/
structure MonitorConfig where
  cpuThreshold : ℚ := 80
  memoryThreshold : ℚ := 80
  diskThreshold : ℚ := 90
deriving Repr

/-- `self.alert_cooldown = 300` (monitoring.py line 30), hard-coded. -/
def alertCooldown : ℚ := 300

/-- The slice of `get_all_metrics` that `check_thresholds` and
`is_system_healthy` consume: the cpu percentage, `memory["percent"]`
and `disk["percent"]`. -/
structure Metrics where
  cpu : ℚ
  memoryPercent : ℚ
  diskPercent : ℚ
deriving Repr

/-- The observable produced by a fired alert (`logger.resource_alert` plus the
registered callback, monitoring.py lines 113-124); the spec's `AlertEvent`. -/
structure AlertEvent where
  resource : String
  value : ℚ
  threshold : ℚ
  timestamp : ℚ
deriving Repr, DecidableEq

/-- `self.last_alerts` (monitoring.py line 29): the per-resource time of the
last fired alert; a missing entry reads as `0` via `.get(resource, 0)`. -/
structure MonitorState where
  lastAlerts : List (String × ℚ)
deriving Repr

/-- `ResourceMonitor._trigger_alert` (monitoring.py lines 104-124): suppress
when the same resource fired within the cooldown window; otherwise record the
firing time and emit the alert event. -/
def triggerAlert (st : MonitorState) (resource : String) (usage threshold t : ℚ) :
    MonitorState × List AlertEvent :=
  let lastAlertTime := (st.lastAlerts.lookup resource).getD 0
  if t - lastAlertTime < alertCooldown then (st, [])
  else
    ({ lastAlerts := (resource, t) :: st.lastAlerts.eraseP (fun p => p.1 == resource) },
     [⟨resource, usage, threshold, t⟩])

/-- `ResourceMonitor.check_thresholds` (monitoring.py lines 85-102): compare
cpu, then memory, then disk against their thresholds, attempting an alert for
each strict exceedance, threading the cooldown state. -/
def checkThresholds (cfg : MonitorConfig) (st : MonitorState) (m : Metrics)
    (t : ℚ) : MonitorState × List AlertEvent :=
  let (st, cpuEvents) :=
    if cfg.cpuThreshold < m.cpu then triggerAlert st "cpu" m.cpu cfg.cpuThreshold t
    else (st, [])
  let (st, memEvents) :=
    if cfg.memoryThreshold < m.memoryPercent then
      triggerAlert st "memory" m.memoryPercent cfg.memoryThreshold t
    else (st, [])
  let (st, diskEvents) :=
    if cfg.diskThreshold < m.diskPercent then
      triggerAlert st "disk" m.diskPercent cfg.diskThreshold t
    else (st, [])
  (st, cpuEvents ++ memEvents ++ diskEvents)

/-- `ResourceMonitor.is_system_healthy` (monitoring.py lines 211-219): the
latest sample is strictly under all three thresholds. -/
def isSystemHealthy (cfg : MonitorConfig) (m : Metrics) : Bool :=
  m.cpu < cfg.cpuThreshold && m.memoryPercent < cfg.memoryThreshold &&
    m.diskPercent < cfg.diskThreshold

/-! ## BackupManager (`src/aurora/backup.py`)

For the retention claim the backup directory is modelled as the list of its
entries (each a backup directory or `.tar.gz` archive) with their creation
times (`st_mtime`); directory iteration order is arbitrary, and
`list_backups` sorts by creation time. -/

/-- One entry of the backup directory as seen by `list_backups`:
a name and its `st_mtime` creation time. -/
structure BackupEntry where
  name : String
  created : ℚ
deriving Repr, DecidableEq

/-- Stable insertion into a newest-first list, keeping existing entries with
the same or a newer creation time ahead. -/
def insertDesc (e : BackupEntry) : List BackupEntry → List BackupEntry
  | [] => [e]
  | x :: xs => if e.created ≤ x.created then x :: insertDesc e xs else e :: x :: xs

/-- Newest-first stable sort, as performed by
`backups.sort(key=lambda x: x["created"], reverse=True)`. -/
def sortDesc : List BackupEntry → List BackupEntry
  | [] => []
  | x :: xs => insertDesc x (sortDesc xs)

/-- `BackupManager.list_backups` (backup.py lines 226-261): collect the
entries of the backup directory and sort newest first by creation time. -/
def listBackups (dir : List BackupEntry) : List BackupEntry :=
  sortDesc dir

/-- `BackupManager._cleanup_old_backups` (backup.py lines 263-283): when
`list_backups()` exceeds `max_backups`, delete every entry past the first
`max_backups` of the newest-first listing (i.e. the oldest excess entries). -/
def cleanupOldBackups (maxBackups : ℕ) (dir : List BackupEntry) :
    List BackupEntry :=
  if maxBackups < (listBackups dir).length then (listBackups dir).take maxBackups
  else dir

/-- The directory effect of one successful `BackupManager.create_backup`
(backup.py lines 33-119): a new entry appears in the backup directory, then
`_cleanup_old_backups` runs. -/
def snapshotStep (maxBackups : ℕ) (dir : List BackupEntry) (e : BackupEntry) :
    List BackupEntry :=
  cleanupOldBackups maxBackups (dir ++ [e])

/-- Backup entry created by the `i`-th snapshot of the retention scenario. -/
def snapEntry (τ : ℕ → ℚ) (i : ℕ) : BackupEntry :=
  ⟨"backup", τ i⟩

/-- The backup directory after `n` successful snapshots taken at the strictly
increasing creation times `τ 0, τ 1, …`, starting from an empty backup
directory. -/
def dirAfter (maxBackups : ℕ) (τ : ℕ → ℚ) : ℕ → List BackupEntry
  | 0 => []
  | n + 1 => snapshotStep maxBackups (dirAfter maxBackups τ n) (snapEntry τ n)

/-! ### Backup metadata sidecar (claim about `create_backup` + compression) -/

/-- The `backup_metadata.json` payload written by `create_backup`
(backup.py lines 86-93). -/
structure BackupMetadata where
  timestamp : String
  evolutionCount : Option ℕ
  backupType : String
  files : List String
  sizeBytes : ℕ
  compressed : Bool
deriving Repr, DecidableEq

/-- A file inside a backup directory or archive: either one of the copied
source files or the metadata sidecar. -/
inductive BackupFile where
  | copied (name : String)
  | sidecar (md : BackupMetadata)
deriving Repr, DecidableEq

/-- The artifact left on disk by `create_backup`: the uncompressed backup
directory, or (when compression succeeds) the `.tar.gz` archive of exactly the
directory's contents, the uncompressed directory having been removed. -/
inductive BackupArtifact where
  | directory (contents : List BackupFile)
  | archive (contents : List BackupFile)
deriving Repr, DecidableEq

/-- A source file that `create_backup` considers: destination name and size,
plus whether it exists (missing files are skipped, not an error). -/
structure SourceFile where
  destName : String
  sizeBytes : ℕ
  present : Bool
deriving Repr, DecidableEq

/-- Result of `create_backup`: the on-disk artifact and the final value of
the in-memory `metadata` dict. -/
structure CreateBackupResult where
  artifact : BackupArtifact
  inMemoryMetadata : BackupMetadata
deriving Repr, DecidableEq

/-- `BackupManager.create_backup` (backup.py lines 33-119), for a successful
run: copy each existing source file into the fresh backup directory, write the
metadata sidecar with `"compressed": False` (lines 86-97), and only then — if
compression is enabled and `_compress_backup` succeeds (lines 100-106) —
archive the directory as-is, remove the uncompressed copy, and flip the
in-memory `metadata["compressed"]` to `True`.  The sidecar on disk is never
rewritten after the flip. -/
def createBackup (compression compressOk : Bool) (sources : List SourceFile)
    (timestamp : String) (evolutionCount : Option ℕ) (backupType : String) :
    CreateBackupResult :=
  let copied := sources.filter (fun f => f.present)
  let filesBackedUp := copied.map (fun f => f.destName)
  let totalSize := (copied.map (fun f => f.sizeBytes)).sum
  let metadata : BackupMetadata :=
    ⟨timestamp, evolutionCount, backupType, filesBackedUp, totalSize, false⟩
  let dirContents : List BackupFile :=
    copied.map (fun f => .copied f.destName) ++ [.sidecar metadata]
  if compression && compressOk then
    { artifact := .archive dirContents,
      inMemoryMetadata := { metadata with compressed := true } }
  else
    { artifact := .directory dirContents, inMemoryMetadata := metadata }

/-- The metadata sidecar stored inside an artifact, if any (the restore path
reads `backup_metadata.json`, backup.py lines 172-179). -/
def sidecarOf (a : BackupArtifact) : Option BackupMetadata :=
  let find := fun (contents : List BackupFile) =>
    contents.findSome? (fun f =>
      match f with
      | .sidecar md => some md
      | .copied _ => none)
  match a with
  | .directory contents => find contents
  | .archive contents => find contents

/-! ## Aurora supervisor loop (`src/aurora/core.py`)

One iteration of the `while self.running` body of `Aurora.run` (core.py lines
480-510) together with `Aurora.evolve_code` (lines 310-385) and
`Aurora._write_code` (lines 401-409), embedded as an explicit state
transformer emitting a trace of observable effects.  The candidate-code
producer (the reflection comment inserted at lines 329-351) and the
validator's verdict are external inputs of the tick, per the specification's
collaborator boundary. -/

/-- Observable side effects of a supervisor tick: log records, sleeps, calls
into `BackupManager.create_backup`, calls into
`CodeValidator.validate_evolution_code`, and file-system operations.  The
constructors distinguish a direct `open(..., 'w')` write from a
write-to-temporary and a rename, so that the persistence mechanism is
visible in the trace. -/
inductive Effect where
  | logWarning (msg : String)
  | logInfo (msg : String)
  | logError (msg : String)
  | sleep (seconds : ℚ)
  | createBackup (backupType : String) (evolutionCount : ℕ)
  | validate
  | apiCall
  | fsWrite (path : String)
  | fsWriteTemp (path : String)
  | fsRename (src dst : String)
deriving Repr, DecidableEq

/-- The supervisor state a tick touches: the cycle counter, the evolution
counter, and the contents of the on-disk self-writing code file. -/
structure AuroraState where
  cycleCount : ℕ
  evolutionCount : ℕ
  codeLines : List String
deriving Repr, DecidableEq

/-- The configuration slice the tick reads: `backup.before_evolution`
(core.py line 316) and `execution.cycle_interval` (line 477). -/
structure TickConfig where
  beforeEvolution : Bool
  cycleInterval : ℚ
deriving Repr

/-- The code file path, `files["code"]` with its default
(core.py lines 389, 403). -/
def codeFilePath : String := "data/aurora_self_writing.py"

/-- The memory file persisted by `save_memory` after a successful evolution
(core.py line 373). -/
def memoryFilePath : String := "data/aurora_memory.json"

/-- `Aurora._write_code` (core.py lines 401-409): the evolved code is written
by opening the code file for writing and writing the lines directly — there
is no temporary file and no rename. -/
def writeCode (st : AuroraState) (newCode : List String) :
    AuroraState × List Effect :=
  ({ st with codeLines := newCode }, [.fsWrite codeFilePath])

/-- `Aurora.evolve_code` (core.py lines 310-385): optional pre-evolution
backup (best effort, before anything else), read the current code (empty read
aborts), build the candidate via the external `mutate` producer, ask the
validator (`valid` is the verdict `validate_evolution_code` returns for this
old/new pair), and on success write the code, bump the evolution counter and
persist the memory file.  Returns the updated state, the success flag, and
the emitted effects. -/
def evolveCode (cfg : TickConfig) (mutate : List String → List String)
    (valid : Bool) (st : AuroraState) : AuroraState × Bool × List Effect :=
  let preEffects :=
    if cfg.beforeEvolution then
      [Effect.createBackup "pre_evolution" st.evolutionCount]
    else []
  if st.codeLines.isEmpty then (st, false, preEffects)
  else
    let newCode := mutate st.codeLines
    let valEffects := [Effect.validate]
    if !valid then
      (st, false,
       preEffects ++ valEffects ++ [.logError "Evolution validation failed"])
    else
      let (st, writeEffects) := writeCode st newCode
      let st := { st with evolutionCount := st.evolutionCount + 1 }
      (st, true,
       preEffects ++ valEffects ++ writeEffects ++
         [.fsWrite memoryFilePath, .logInfo "Code evolved successfully"])

/-- One iteration of the `while self.running` body of `Aurora.run` (core.py
lines 480-510): increment the cycle counter; if
`ResourceMonitor.is_system_healthy()` is false, log a warning, sleep twice
the cycle interval and `continue` — skipping the API call, the evolution
step, both backups and the trailing normal sleep; otherwise explore the API,
evolve, take the post-evolution backup on success, and sleep the normal
interval. -/
def runCycle (cfg : TickConfig) (mcfg : MonitorConfig) (metrics : Metrics)
    (mutate : List String → List String) (valid : Bool) (st : AuroraState) :
    AuroraState × List Effect :=
  let st := { st with cycleCount := st.cycleCount + 1 }
  if !isSystemHealthy mcfg metrics then
    (st, [.logWarning "System resources under stress, slowing down",
          .sleep (cfg.cycleInterval * 2)])
  else
    let (st, evolved, evolveEffects) := evolveCode cfg mutate valid st
    let postEffects :=
      if evolved then [Effect.createBackup "post_evolution" st.evolutionCount]
      else []
    (st, Effect.apiCall :: evolveEffects ++ postEffects ++
      [.sleep cfg.cycleInterval])

/-- An effect that touches the file system: a backup creation, a direct
write, a temp-file write or a rename. -/
def isFileMutation : Effect → Bool
  | .createBackup _ _ => true
  | .fsWrite _ => true
  | .fsWriteTemp _ => true
  | .fsRename _ _ => true
  | _ => false

/-- A rename effect (the commit step of an atomic write-temp-then-rename). -/
def isRename : Effect → Bool
  | .fsRename _ _ => true
  | _ => false

/-! ## Auxiliary notions used by the theorem statements -/

/-- The names of the functions defined at the top level of a module (the
specification's reading of "top-level function definition names" — contrast
with `extractFunctionNames`, which walks the whole tree). -/
def topLevelFunctionNames (m : PyModule) : List String :=
  m.flatMap (fun s =>
    match s with
    | .functionDef name _ => [name]
    | _ => [])

/-- The name a deny-listed call targets (its `Name` id or dotted attribute
chain), as it appears in the validator's error message. -/
def callTargetName : PyNode → String
  | .expr (.call f _) => getFullName f
  | _ => ""

/-- A scalar string of the exact form `${NAME}` (braces written as character
escapes). -/
def envForm (name : String) : String :=
  "$\x7b" ++ name ++ "\x7d"

/-- The resources whose metrics strictly exceed their thresholds, in the
order `check_thresholds` examines them. -/
def breachSet (cfg : MonitorConfig) (m : Metrics) : List String :=
  (if cfg.cpuThreshold < m.cpu then ["cpu"] else []) ++
    (if cfg.memoryThreshold < m.memoryPercent then ["memory"] else []) ++
    (if cfg.diskThreshold < m.diskPercent then ["disk"] else [])

/-- A write to a temporary file (the first half of an atomic
write-temp-then-rename). -/
def isTempWrite : Effect → Bool
  | .fsWriteTemp _ => true
  | _ => false

end Aurora

namespace Aurora

/-! # Theorems -/

/-! ## Generic helper lemmas -/

/-- If every element satisfying `p` contributes at least one element under
`f`, the flat-map is at least as long as the `p`-count. -/
theorem countP_le_length_flatMap {α β : Type} (l : List α) (p : α → Bool)
    (f : α → List β) (h : ∀ x ∈ l, p x = true → 1 ≤ (f x).length) :
    l.countP p ≤ (l.flatMap f).length := by
  induction l with
  | nil => simp
  | cons x xs ih =>
    rw [List.countP_cons, List.flatMap_cons, List.length_append]
    have hxs : xs.countP p ≤ (xs.flatMap f).length :=
      ih (fun y hy => h y (List.mem_cons_of_mem _ hy))
    by_cases hp : p x = true
    · have h1 := h x (List.mem_cons_self _ _) hp
      rw [if_pos hp]
      omega
    · rw [if_neg hp]
      omega

/-- The error `_analyze_node` emits for a deny-listed call. -/
theorem analyzeNode_denylisted {n : PyNode} (h : isDenyListedCall n = true) :
    analyzeNode n = ["Dangerous function call: " ++ callTargetName n] := by
  match n with
  | .expr (.call (.name fn) args) =>
    simp only [isDenyListedCall, decide_eq_true_eq] at h
    simp [analyzeNode, callTargetName, getFullName, h]
  | .expr (.call (.attribute v a) args) =>
    simp only [isDenyListedCall, decide_eq_true_eq] at h
    simp [analyzeNode, callTargetName, h]
  | .expr (.call .constant args) => simp [isDenyListedCall] at h
  | .expr (.call (.call f as) args) => simp [isDenyListedCall] at h
  | .expr (.name i) => simp [isDenyListedCall] at h
  | .expr (.attribute v a) => simp [isDenyListedCall] at h
  | .expr .constant => simp [isDenyListedCall] at h
  | .stmt s => simp [isDenyListedCall] at h
  | .module b => simp [isDenyListedCall] at h

/-- With the default configuration, validating a parsed module reduces to the
AST safety walk. -/
theorem validateCode_default_ok (m : PyModule) :
    validateCode {} (.ok m) =
      (((moduleWalk m).flatMap analyzeNode).isEmpty,
       (moduleWalk m).flatMap analyzeNode) := by
  simp [validateCode, checkSyntax, checkAstSafety]

/-! ## Claim C9 -/

/-- Claim C9: when the `validation.enabled` configuration flag is false,
`validate_code` returns `(valid := true, errors := [])` for every input — a
source that fails to parse and a source full of deny-listed calls alike —
performing no syntax or safety check at all (regardless of the `ast_check`
and `syntax_check` flags). -/
theorem claim9_disabled_validation_accepts_everything
    (astCheck syntaxCheck : Bool) (src : PySource) :
    validateCode ⟨false, astCheck, syntaxCheck⟩ src = (true, []) := by
  simp [validateCode]

/-! ## Claim C10 -/

/-- Finding the sidecar in a directory listing that ends with it. -/
theorem findSome?_copied_append_sidecar (l : List SourceFile)
    (md : BackupMetadata) :
    ((l.map (fun f => BackupFile.copied f.destName)) ++
        [BackupFile.sidecar md]).findSome?
      (fun f => match f with | .sidecar md => some md | .copied _ => none)
      = some md := by
  induction l with
  | nil => rfl
  | cons x xs ih => simpa [List.findSome?] using ih

/-- Claim C10: for every snapshot created with compression enabled (and a
successful compression step), the `backup_metadata.json` sidecar stored
inside the resulting compressed archive records `"compressed": false`: the
sidecar is serialized to disk before `_compress_backup` runs, and only the
in-memory metadata dict is updated to `compressed = true` afterwards, so the
on-disk sidecar never reflects the archive's actual compressed state. -/
theorem claim10_sidecar_records_uncompressed (sources : List SourceFile)
    (timestamp : String) (evolutionCount : Option ℕ) (backupType : String) :
    ∃ md : BackupMetadata,
      sidecarOf (createBackup true true sources timestamp evolutionCount
          backupType).artifact = some md ∧
      md.compressed = false ∧
      (createBackup true true sources timestamp evolutionCount
          backupType).inMemoryMetadata.compressed = true ∧
      ∃ contents, (createBackup true true sources timestamp evolutionCount
          backupType).artifact = .archive contents := by
  refine ⟨⟨timestamp, evolutionCount, backupType,
    (sources.filter (fun f => f.present)).map (fun f => f.destName),
    ((sources.filter (fun f => f.present)).map (fun f => f.sizeBytes)).sum,
    false⟩, ?_, rfl, rfl, ?_⟩
  · simp [createBackup, sidecarOf, findSome?_copied_append_sidecar]
  · exact ⟨_, rfl⟩

/-! ## Claim C1 -/

/-- Claim C1, counterexample: in the module consisting of the single
expression statement `eval()`, there is exactly one deny-listed call, yet
`validate_code` appends two error strings for it — the `Expr`-statement
branch of `_analyze_node` reports "Dynamic code execution: eval" and the
`Call`-node branch reports "Dangerous function call: eval" for the same
call — refuting "each deny-list match appends exactly one error string". -/
theorem claim1_counterexample :
    denyListedCallCount [.exprStmt (.call (.name "eval") [])] = 1 ∧
    validateCode {} (.ok [.exprStmt (.call (.name "eval") [])]) =
      (false, ["Dynamic code execution: eval",
               "Dangerous function call: eval"]) ∧
    (validateCode {} (.ok [.exprStmt (.call (.name "eval") [])])).2.length ≠
      denyListedCallCount [.exprStmt (.call (.name "eval") [])] := by
  decide

/-- Claim C1, amended: for every source that parses successfully and contains
a call whose target name (or dotted attribute chain) is deny-listed,
`validate_code` returns `valid = false`, and for each such call the error
list contains an error naming that construct; each deny-list match appends at
least one error string (a bare expression-statement call to `exec` or `eval`
appends two, as the counterexample shows), so the error list is at least as
long as the number of deny-list matches.  No exception is raised: the
embedding is total and a node of unrecognized shape contributes no error. -/
theorem claim1_amended (m : PyModule)
    (h : ∃ n ∈ moduleWalk m, isDenyListedCall n = true) :
    (validateCode {} (.ok m)).1 = false ∧
    (∀ n ∈ moduleWalk m, isDenyListedCall n = true →
      ("Dangerous function call: " ++ callTargetName n) ∈
        (validateCode {} (.ok m)).2) ∧
    denyListedCallCount m ≤ (validateCode {} (.ok m)).2.length := by
  obtain ⟨n₀, hn₀, hdeny₀⟩ := h
  rw [validateCode_default_ok]
  have hmem : ∀ n ∈ moduleWalk m, isDenyListedCall n = true →
      ("Dangerous function call: " ++ callTargetName n) ∈
        (moduleWalk m).flatMap analyzeNode := by
    intro n hn hd
    exact List.mem_flatMap.mpr ⟨n, hn, by rw [analyzeNode_denylisted hd]; simp⟩
  refine ⟨?_, hmem, ?_⟩
  · have : ((moduleWalk m).flatMap analyzeNode) ≠ [] :=
      List.ne_nil_of_mem (hmem n₀ hn₀ hdeny₀)
    simpa [List.isEmpty_iff] using this
  · exact countP_le_length_flatMap _ _ _
      (fun x _ hx => by rw [analyzeNode_denylisted hx]; simp)

/-- Claim C1, amended, witness: the module `x = eval(data)` contains a
deny-listed call, is rejected, and the error list names `eval`. -/
theorem claim1_amended_witness :
    (∃ n ∈ moduleWalk [.assign "x" (.call (.name "eval") [.name "data"])],
      isDenyListedCall n = true) ∧
    ((validateCode {}
        (.ok [.assign "x" (.call (.name "eval") [.name "data"])])).1 = false ∧
     (∀ n ∈ moduleWalk [.assign "x" (.call (.name "eval") [.name "data"])],
        isDenyListedCall n = true →
        ("Dangerous function call: " ++ callTargetName n) ∈
          (validateCode {}
            (.ok [.assign "x" (.call (.name "eval") [.name "data"])])).2) ∧
     denyListedCallCount [.assign "x" (.call (.name "eval") [.name "data"])] ≤
       (validateCode {}
         (.ok [.assign "x" (.call (.name "eval") [.name "data"])])).2.length) :=
  ⟨by decide, claim1_amended _ (by decide)⟩

/-! ## Claim C2 -/

/-- Claim C2, counterexample: `_extract_function_names` walks the whole tree,
not just the top level.  With old code defining `run` and `evolve` at the top
level, and new code defining `evolve` only nested inside `run`, the required
name `evolve` is defined at the top level of the old tree but not of the new
tree — so the claim (stated over top-level names) demands `valid = false` —
yet `validate_evolution_code` still finds the nested `evolve` in its full
walk and returns `(valid = true, errors = [])`. -/
theorem claim2_counterexample :
    "evolve" ∈ criticalFunctions ∧
    "evolve" ∈ topLevelFunctionNames
      [.functionDef "run" [], .functionDef "evolve" []] ∧
    "evolve" ∉ topLevelFunctionNames
      [.functionDef "run" [.functionDef "evolve" []]] ∧
    validateCode {} (.ok [.functionDef "run" [.functionDef "evolve" []]]) =
      (true, []) ∧
    validateEvolutionCode {}
      (.ok [.functionDef "run" [], .functionDef "evolve" []])
      (.ok [.functionDef "run" [.functionDef "evolve" []]]) = (true, []) := by
  decide

/-- Claim C2, amended: for every pair of parsed trees where the new source
passes `validate_code`, `validate_evolution_code` extracts the function
definition names of both trees at every nesting depth (via a full AST walk)
and returns `valid = false` whenever a required name — the hard-coded set
`{evolve, run, awaken}` — occurs among the old tree's function names but not
the new tree's, with exactly one error listing the removed required names; in
particular, old code defining `run` and `evolve` with new code omitting
`evolve` yields `valid = false` and the error mentions `evolve`. -/
theorem claim2_amended (oldTree newTree : PyModule) (c : String)
    (hvalid : validateCode {} (.ok newTree) = (true, []))
    (hc : c ∈ criticalFunctions)
    (hold : c ∈ extractFunctionNames oldTree)
    (hnew : c ∉ extractFunctionNames newTree) :
    (validateEvolutionCode {} (.ok oldTree) (.ok newTree)).1 = false ∧
    ∃ removed, (validateEvolutionCode {} (.ok oldTree) (.ok newTree)).2 =
        [criticalRemovedMsg removed] ∧ c ∈ removed := by
  have hpred : (extractFunctionNames oldTree).contains c = true ∧
      ((extractFunctionNames newTree).contains c = false) := by
    constructor
    · exact List.elem_eq_true_of_mem hold
    · by_contra hcon
      simp only [Bool.not_eq_false] at hcon
      exact hnew (List.mem_of_elem_eq_true hcon)
  have hmemfilter : c ∈ criticalFunctions.filter
      (fun c => (extractFunctionNames oldTree).contains c &&
        !((extractFunctionNames newTree).contains c)) := by
    refine List.mem_filter.mpr ⟨hc, ?_⟩
    rw [hpred.1, hpred.2]
    rfl
  have hne : criticalFunctions.filter
      (fun c => (extractFunctionNames oldTree).contains c &&
        !((extractFunctionNames newTree).contains c)) ≠ [] :=
    List.ne_nil_of_mem hmemfilter
  refine ?_
  simp only [validateEvolutionCode, hvalid]
  rw [List.isEmpty_eq_false.mpr hne]
  simp only [List.nil_append, List.isEmpty_cons]
  exact ⟨rfl, _, rfl, hmemfilter⟩

/-- Claim C2, amended, witness: old code defines `run` and `evolve`, new code
defines only `run`; the result is invalid and the single error lists
`evolve`. -/
theorem claim2_amended_witness :
    validateCode {} (.ok [PyStmt.functionDef "run" []]) = (true, []) ∧
    "evolve" ∈ criticalFunctions ∧
    "evolve" ∈ extractFunctionNames
      [.functionDef "run" [], .functionDef "evolve" []] ∧
    "evolve" ∉ extractFunctionNames [PyStmt.functionDef "run" []] ∧
    ((validateEvolutionCode {}
        (.ok [.functionDef "run" [], .functionDef "evolve" []])
        (.ok [PyStmt.functionDef "run" []])).1 = false ∧
      ∃ removed, (validateEvolutionCode {}
          (.ok [.functionDef "run" [], .functionDef "evolve" []])
          (.ok [PyStmt.functionDef "run" []])).2 =
        [criticalRemovedMsg removed] ∧ "evolve" ∈ removed) :=
  ⟨by decide, by decide, by decide, by decide,
    claim2_amended _ _ _ (by decide) (by decide) (by decide) (by decide)⟩

/-! ## Claim C3 -/

/-- Claim C3: on every supervisor tick where the resource monitor reports the
system unhealthy, the loop body records the skip (the
"System resources under stress, slowing down" warning event), sleeps the
extended backoff of twice the cycle interval, and performs zero file
mutations: the emitted effects are exactly the warning and the extended
sleep — no backup creation, no validator invocation, no file write — and the
on-disk code (and the evolution counter) are unchanged. -/
theorem claim3_unhealthy_tick_backs_off (cfg : TickConfig)
    (mcfg : MonitorConfig) (metrics : Metrics)
    (mutate : List String → List String) (valid : Bool) (st : AuroraState)
    (h : isSystemHealthy mcfg metrics = false) :
    (runCycle cfg mcfg metrics mutate valid st).1.codeLines = st.codeLines ∧
    (runCycle cfg mcfg metrics mutate valid st).1.evolutionCount =
      st.evolutionCount ∧
    (runCycle cfg mcfg metrics mutate valid st).2 =
      [.logWarning "System resources under stress, slowing down",
       .sleep (cfg.cycleInterval * 2)] ∧
    (∀ e ∈ (runCycle cfg mcfg metrics mutate valid st).2,
      isFileMutation e = false ∧ e ≠ Effect.validate) := by
  refine ⟨?_, ?_, ?_, ?_⟩ <;> simp [runCycle, h, isFileMutation]

/-- Claim C3, witness: with cpu at 95% against the default 80% threshold the
system is unhealthy and the tick only warns and sleeps `2 × 2.0` seconds. -/
theorem claim3_witness :
    isSystemHealthy {} ⟨95, 50, 50⟩ = false ∧
    ((runCycle ⟨true, 2⟩ {} ⟨95, 50, 50⟩ id true ⟨0, 0, ["x"]⟩).1.codeLines =
        ["x"] ∧
      (runCycle ⟨true, 2⟩ {} ⟨95, 50, 50⟩ id true
          ⟨0, 0, ["x"]⟩).1.evolutionCount = 0 ∧
      (runCycle ⟨true, 2⟩ {} ⟨95, 50, 50⟩ id true ⟨0, 0, ["x"]⟩).2 =
        [.logWarning "System resources under stress, slowing down",
         .sleep ((2 : ℚ) * 2)] ∧
      (∀ e ∈ (runCycle ⟨true, 2⟩ {} ⟨95, 50, 50⟩ id true ⟨0, 0, ["x"]⟩).2,
        isFileMutation e = false ∧ e ≠ Effect.validate)) :=
  ⟨by decide, claim3_unhealthy_tick_backs_off _ _ _ _ _ _ (by decide)⟩

/-! ## Claim C4 -/

/-- Claim C4, counterexample: a healthy tick whose candidate passes
validation persists the evolved code with a single direct write to the code
file (`_write_code` opens the file and writes the lines); the effect trace
contains no write-to-temporary and no rename, refuting "persisted atomically
by writing to a temporary file and then renaming it over the code file". -/
theorem claim4_counterexample :
    Effect.fsWrite codeFilePath ∈
      (runCycle ⟨true, 2⟩ {} ⟨10, 10, 10⟩ (fun l => l ++ ["# evolved"]) true
        ⟨0, 0, ["line1"]⟩).2 ∧
    (∀ e ∈ (runCycle ⟨true, 2⟩ {} ⟨10, 10, 10⟩ (fun l => l ++ ["# evolved"])
        true ⟨0, 0, ["line1"]⟩).2,
      isRename e = false ∧ isTempWrite e = false) ∧
    (runCycle ⟨true, 2⟩ {} ⟨10, 10, 10⟩ (fun l => l ++ ["# evolved"]) true
      ⟨0, 0, ["line1"]⟩).1.evolutionCount = 1 ∧
    (runCycle ⟨true, 2⟩ {} ⟨10, 10, 10⟩ (fun l => l ++ ["# evolved"]) true
      ⟨0, 0, ["line1"]⟩).1.codeLines = ["line1", "# evolved"] := by
  decide

/-- Claim C4, amended: for every tick whose candidate code passes validation,
the evolved code is persisted by opening the code file and writing the new
lines directly — there is no temporary file and no rename, so the write is
not atomic and the on-disk code file is observable in a partially-written
state if the process dies mid-write — and the evolution counter is
incremented. -/
theorem claim4_amended (cfg : TickConfig) (mcfg : MonitorConfig)
    (metrics : Metrics) (mutate : List String → List String) (st : AuroraState)
    (hhealthy : isSystemHealthy mcfg metrics = true)
    (hcode : st.codeLines ≠ []) :
    (runCycle cfg mcfg metrics mutate true st).1.codeLines =
      mutate st.codeLines ∧
    (runCycle cfg mcfg metrics mutate true st).1.evolutionCount =
      st.evolutionCount + 1 ∧
    Effect.fsWrite codeFilePath ∈ (runCycle cfg mcfg metrics mutate true st).2 ∧
    (∀ e ∈ (runCycle cfg mcfg metrics mutate true st).2,
      isRename e = false ∧ isTempWrite e = false) := by
  have hne : st.codeLines.isEmpty = false := by
    simpa [List.isEmpty_iff] using hcode
  refine ⟨?_, ?_, ?_, ?_⟩ <;>
    by_cases hb : cfg.beforeEvolution <;>
    simp [runCycle, evolveCode, writeCode, hhealthy, hne, hb, isRename,
      isTempWrite]

/-- Claim C4, amended, witness: a concrete healthy tick with a passing
candidate writes the code file directly, with no temp write and no rename,
and bumps the counter from 0 to 1. -/
theorem claim4_amended_witness :
    isSystemHealthy {} ⟨10, 10, 10⟩ = true ∧
    (["line1"] : List String) ≠ [] ∧
    ((runCycle ⟨true, 2⟩ {} ⟨10, 10, 10⟩ (fun l => l ++ ["# evolved"]) true
        ⟨0, 0, ["line1"]⟩).1.codeLines = ["line1"] ++ ["# evolved"] ∧
      (runCycle ⟨true, 2⟩ {} ⟨10, 10, 10⟩ (fun l => l ++ ["# evolved"]) true
        ⟨0, 0, ["line1"]⟩).1.evolutionCount = 0 + 1 ∧
      Effect.fsWrite codeFilePath ∈
        (runCycle ⟨true, 2⟩ {} ⟨10, 10, 10⟩ (fun l => l ++ ["# evolved"]) true
          ⟨0, 0, ["line1"]⟩).2 ∧
      (∀ e ∈ (runCycle ⟨true, 2⟩ {} ⟨10, 10, 10⟩ (fun l => l ++ ["# evolved"])
          true ⟨0, 0, ["line1"]⟩).2,
        isRename e = false ∧ isTempWrite e = false)) :=
  ⟨by decide, by decide,
    claim4_amended _ _ _ _ _ (by decide) (by decide)⟩

/-! ## Claim C6 -/

/-- When exactly one resource breaches its threshold, `check_thresholds`
reduces to a single `_trigger_alert` attempt for that resource. -/
theorem checkThresholds_single_breach (cfg : MonitorConfig)
    (st : MonitorState) (m : Metrics) (t : ℚ) (r : String)
    (h : breachSet cfg m = [r]) :
    ∃ u th, checkThresholds cfg st m t = triggerAlert st r u th t := by
  by_cases hc : cfg.cpuThreshold < m.cpu
  · by_cases hm : cfg.memoryThreshold < m.memoryPercent
    · by_cases hd : cfg.diskThreshold < m.diskPercent <;>
        simp [breachSet, hc, hm, hd] at h
    · by_cases hd : cfg.diskThreshold < m.diskPercent
      · simp [breachSet, hc, hm, hd] at h
      · simp [breachSet, hc, hm, hd] at h
        subst h
        refine ⟨m.cpu, cfg.cpuThreshold, ?_⟩
        rcases htr : triggerAlert st "cpu" m.cpu cfg.cpuThreshold t with ⟨st1, ev1⟩
        simp [checkThresholds, hc, hm, hd, htr]
  · by_cases hm : cfg.memoryThreshold < m.memoryPercent
    · by_cases hd : cfg.diskThreshold < m.diskPercent
      · simp [breachSet, hc, hm, hd] at h
      · simp [breachSet, hc, hm, hd] at h
        subst h
        refine ⟨m.memoryPercent, cfg.memoryThreshold, ?_⟩
        rcases htr : triggerAlert st "memory" m.memoryPercent
          cfg.memoryThreshold t with ⟨st1, ev1⟩
        simp [checkThresholds, hc, hm, hd, htr]
    · by_cases hd : cfg.diskThreshold < m.diskPercent
      · simp [breachSet, hc, hm, hd] at h
        subst h
        refine ⟨m.diskPercent, cfg.diskThreshold, ?_⟩
        rcases htr : triggerAlert st "disk" m.diskPercent
          cfg.diskThreshold t with ⟨st1, ev1⟩
        simp [checkThresholds, hc, hm, hd, htr]
      · simp [breachSet, hc, hm, hd] at h

/-- Claim C6: for every resource kind, starting from a monitor that has never
alerted, two threshold breaches of that same resource — the first at a time
at least one cooldown after the epoch, so that the `last_alerts.get(r, 0)`
default does not suppress it — produce exactly one `AlertEvent` when the
second breach falls within the cooldown window (default 300 s) of the first
firing, and exactly two `AlertEvent`s when they are separated by more than
the cooldown.  The produced events all carry the breached resource. -/
theorem claim6_alert_cooldown (cfg : MonitorConfig) (r : String)
    (m₁ m₂ : Metrics) (t₁ t₂ : ℚ)
    (h₁ : breachSet cfg m₁ = [r]) (h₂ : breachSet cfg m₂ = [r])
    (ht₁ : alertCooldown ≤ t₁) (ht₁₂ : t₁ ≤ t₂) :
    (t₂ - t₁ < alertCooldown →
      ((checkThresholds cfg ⟨[]⟩ m₁ t₁).2 ++
          (checkThresholds cfg (checkThresholds cfg ⟨[]⟩ m₁ t₁).1 m₂ t₂).2).map
        (fun ev => ev.resource) = [r]) ∧
    (alertCooldown < t₂ - t₁ →
      ((checkThresholds cfg ⟨[]⟩ m₁ t₁).2 ++
          (checkThresholds cfg (checkThresholds cfg ⟨[]⟩ m₁ t₁).1 m₂ t₂).2).map
        (fun ev => ev.resource) = [r, r]) := by
  obtain ⟨u₁, th₁, e₁⟩ := checkThresholds_single_breach cfg ⟨[]⟩ m₁ t₁ r h₁
  have hfire₁ : triggerAlert ⟨[]⟩ r u₁ th₁ t₁ =
      (⟨[(r, t₁)]⟩, [⟨r, u₁, th₁, t₁⟩]) := by
    unfold triggerAlert
    rw [if_neg]
    · simp [List.eraseP]
    · simp only [List.lookup_nil, Option.getD_none, sub_zero, not_lt]
      exact ht₁
  obtain ⟨u₂, th₂, e₂⟩ :=
    checkThresholds_single_breach cfg ⟨[(r, t₁)]⟩ m₂ t₂ r h₂
  have hlookup : ((⟨[(r, t₁)]⟩ : MonitorState).lastAlerts.lookup r).getD 0 =
      t₁ := by
    simp [List.lookup]
  rw [e₁, hfire₁]
  simp only [e₂]
  constructor
  · intro hlt
    have hsup : triggerAlert ⟨[(r, t₁)]⟩ r u₂ th₂ t₂ = (⟨[(r, t₁)]⟩, []) := by
      unfold triggerAlert
      rw [hlookup, if_pos hlt]
    rw [hsup]
    simp
  · intro hgt
    have hfire₂ : triggerAlert ⟨[(r, t₁)]⟩ r u₂ th₂ t₂ =
        (⟨[(r, t₂)]⟩, [⟨r, u₂, th₂, t₂⟩]) := by
      unfold triggerAlert
      rw [hlookup, if_neg (by linarith)]
      simp [List.eraseP]
    rw [hfire₂]
    simp

/-- Claim C6, witness: cpu at 95 % against the default 80 % threshold,
firing at `t = 400`; a repeat breach at `t = 500` (inside the 300 s
cooldown) yields one event in total, while the same theorem applied with a
repeat breach at `t = 800` (more than 300 s later) yields two. -/
theorem claim6_witness :
    (breachSet {} ⟨95, 50, 50⟩ = ["cpu"] ∧ alertCooldown ≤ (400 : ℚ) ∧
      (400 : ℚ) ≤ 500 ∧
      ((500 : ℚ) - 400 < alertCooldown →
        ((checkThresholds {} ⟨[]⟩ ⟨95, 50, 50⟩ 400).2 ++
            (checkThresholds {} (checkThresholds {} ⟨[]⟩ ⟨95, 50, 50⟩ 400).1
              ⟨95, 50, 50⟩ 500).2).map (fun ev => ev.resource) = ["cpu"])) ∧
    ((400 : ℚ) ≤ 800 ∧
      (alertCooldown < (800 : ℚ) - 400 →
        ((checkThresholds {} ⟨[]⟩ ⟨95, 50, 50⟩ 400).2 ++
            (checkThresholds {} (checkThresholds {} ⟨[]⟩ ⟨95, 50, 50⟩ 400).1
              ⟨95, 50, 50⟩ 800).2).map (fun ev => ev.resource) =
          ["cpu", "cpu"])) :=
  ⟨⟨by decide, by decide, by decide,
    (claim6_alert_cooldown {} "cpu" ⟨95, 50, 50⟩ ⟨95, 50, 50⟩ 400 500
      (by decide) (by decide) (by decide) (by decide)).1⟩,
   ⟨by decide,
    (claim6_alert_cooldown {} "cpu" ⟨95, 50, 50⟩ ⟨95, 50, 50⟩ 400 800
      (by decide) (by decide) (by decide) (by decide)).2⟩⟩

/-! ## Claim C7 -/

/-- The traversal is sequential: a path splits into the traversal of its
first segments followed by the traversal of the rest from wherever the first
part arrived. -/
theorem getPath_append (a b : List String) (v : ConfigValue) :
    getPath (a ++ b) v = (getPath a v).bind (getPath b) := by
  induction a generalizing v with
  | nil => simp [getPath]
  | cons k ks ih =>
    simp only [List.cons_append, getPath]
    cases h : lookupKey v k with
    | none => simp
    | some v2 => simp [ih]

/-- Claim C7: `get` performs sequential dotted-path key traversal, and for
every path and every caller-supplied default, whenever any segment of the
path is missing (the key is absent from the mapping reached so far) or hits a
type mismatch (the value reached is not a mapping — `lookupKey` returns
`none` in both cases, the embedding of the caught `KeyError`/`TypeError`),
`get` returns the caller's default.  The embedding is total, so no exception
escapes `get`. -/
theorem claim7_get_default_on_missing (config : ConfigValue) (key : String)
    (default : ConfigValue) (pre : List String) (seg : String)
    (post : List String) (v : ConfigValue)
    (hsplit : splitDot key = pre ++ seg :: post)
    (hpre : getPath pre config = some v)
    (hmiss : lookupKey v seg = none) :
    configGet config key default = default := by
  unfold configGet
  rw [hsplit, getPath_append, hpre]
  simp [getPath, hmiss]

/-- Claim C7, witness: on `{a: "x"}`, the path `"a.b"` hits a type mismatch
at segment `"b"` (the value at `"a"` is a scalar), and `get` returns the
caller's default. -/
theorem claim7_witness :
    splitDot "a.b" = ["a"] ++ "b" :: [] ∧
    getPath ["a"] (.dict [("a", .str "x")]) = some (.str "x") ∧
    lookupKey (.str "x") "b" = none ∧
    configGet (.dict [("a", .str "x")]) "a.b" (.str "DEFAULT") =
      .str "DEFAULT" :=
  ⟨by decide, rfl, rfl,
    claim7_get_default_on_missing (.dict [("a", .str "x")]) "a.b"
      (.str "DEFAULT") ["a"] "b" [] (.str "x") (by decide) rfl rfl⟩

/-! ## Claim C8 -/

/-- Two strings with the same character data are equal. -/
theorem string_eq_of_data_eq {a b : String} (h : a.data = b.data) : a = b := by
  cases a
  cases b
  simp_all

/-- Character data of a `${NAME}` string. -/
theorem envForm_data (name : String) :
    (envForm name).data = '$' :: '{' :: (name.data ++ ['}']) := by
  simp [envForm, String.data_append]

/-- A `${NAME}` string passes the `startswith`/`endswith` guard. -/
theorem isEnvForm_envForm (name : String) : isEnvForm (envForm name) = true := by
  unfold isEnvForm
  rw [envForm_data]
  have h2 : ('$' :: '{' :: (name.data ++ ['}'])) =
      (('$' :: '{' :: name.data) ++ ['}']) := by simp
  rw [h2, List.getLast?_concat]
  simp [List.take]

/-- Slicing `obj[2:-1]` out of a `${NAME}` string recovers `NAME`. -/
theorem envNameOf_envForm (name : String) : envNameOf (envForm name) = name := by
  unfold envNameOf
  rw [envForm_data]
  simp only [List.drop_succ_cons, List.drop_zero, List.dropLast_concat]

/-- `_expand_env_vars` maps over the values of a mapping. -/
theorem expandEnvEntries_eq_map (env : Env)
    (entries : List (String × ConfigValue)) :
    expandEnvEntries env entries =
      entries.map (fun p => (p.1, expandEnvVars env p.2)) := by
  induction entries with
  | nil => rfl
  | cons p rest ih =>
    cases p
    simp [expandEnvEntries, ih]

/-- `_expand_env_vars` maps over the items of a sequence. -/
theorem expandEnvItems_eq_map (env : Env) (items : List ConfigValue) :
    expandEnvItems env items = items.map (expandEnvVars env) := by
  induction items with
  | nil => rfl
  | cons v rest ih => simp [expandEnvItems, ih]

/-- Claim C8: at configuration load time, every scalar string of the exact
form `${NAME}` is replaced by the value of environment variable `NAME` when
it is set and left unchanged otherwise; only strings of that exact form are
ever changed (any string the expansion alters decomposes as `${NAME}`); the
expansion is applied recursively through nested maps (values only) and lists;
`load_config` applies it exactly once at load time; and `get` performs no
expansion — it returns the stored scalar verbatim even when the environment
would supply a value for it. -/
theorem claim8_env_expansion (env : Env) (name : String)
    (entries : List (String × ConfigValue)) (items : List ConfigValue)
    (d : ConfigValue) :
    (∀ v, env name = some v →
      expandEnvVars env (.str (envForm name)) = .str v) ∧
    (env name = none →
      expandEnvVars env (.str (envForm name)) = .str (envForm name)) ∧
    (∀ s : String, expandEnvVars env (.str s) ≠ .str s → ∃ nm, s = envForm nm) ∧
    (expandEnvVars env (.dict entries) =
      .dict (entries.map (fun p => (p.1, expandEnvVars env p.2)))) ∧
    (expandEnvVars env (.list items) =
      .list (items.map (expandEnvVars env))) ∧
    (loadConfig env (.parsed (.dict entries)) =
      expandEnvVars env (.dict entries)) ∧
    (configGet (.dict [("key", .str (envForm name))]) "key" d =
      .str (envForm name)) := by
  refine ⟨?_, ?_, ?_, ?_, ?_, rfl, ?_⟩
  · intro v hv
    simp [expandEnvVars, expandScalar, isEnvForm_envForm, envNameOf_envForm, hv]
  · intro hnone
    simp [expandEnvVars, expandScalar, isEnvForm_envForm, envNameOf_envForm,
      hnone]
  · intro s hne
    rw [expandEnvVars] at hne
    by_cases hform : isEnvForm s = true
    · obtain ⟨cs⟩ := s
      unfold isEnvForm at hform
      simp only [Bool.and_eq_true, decide_eq_true_eq] at hform
      obtain ⟨htake, hlast⟩ := hform
      have hsplit : cs = cs.take 2 ++ cs.drop 2 := (List.take_append_drop 2 cs).symm
      have hrest : cs.drop 2 ≠ [] := by
        intro hnil
        rw [htake, hnil] at hsplit
        rw [hsplit] at hlast
        simp at hlast
      have hlast2 : (cs.drop 2).getLast? = some '}' := by
        rw [hsplit, htake] at hlast
        rwa [List.getLast?_append_of_ne_nil _ hrest] at hlast
      have hrestsplit : (cs.drop 2).dropLast ++ ['}'] = cs.drop 2 := by
        conv_rhs => rw [← List.dropLast_append_getLast hrest]
        rw [List.getLast?_eq_getLast _ hrest] at hlast2
        rw [Option.some_inj.mp hlast2]
      refine ⟨⟨(cs.drop 2).dropLast⟩, ?_⟩
      apply string_eq_of_data_eq
      rw [envForm_data]
      show cs = '$' :: '{' :: ((cs.drop 2).dropLast ++ ['}'])
      rw [hrestsplit]
      conv_lhs => rw [hsplit, htake]
      rfl
    · rw [expandScalar, if_neg (by simpa using hform)] at hne
      exact absurd rfl hne
  · simp [expandEnvVars, expandEnvEntries_eq_map]
  · simp [expandEnvVars, expandEnvItems_eq_map]
  · rfl

/-- Claim C8, witness: with `HOME=/home/user` in the environment, the scalar
`${HOME}` expands to `/home/user`, the scalar `${MISSING}` stays unchanged,
a near-miss scalar `x${HOME}` is never altered, and `get` returns a stored
`${HOME}` scalar verbatim. -/
theorem claim8_witness :
    envForm "HOME" = "$\x7bHOME\x7d" ∧
    (fun n => if n == "HOME" then some "/home/user" else none) "HOME" =
      some "/home/user" ∧
    expandEnvVars (fun n => if n == "HOME" then some "/home/user" else none)
      (.str (envForm "HOME")) = .str "/home/user" ∧
    expandEnvVars (fun n => if n == "HOME" then some "/home/user" else none)
      (.str (envForm "MISSING")) = .str (envForm "MISSING") ∧
    expandEnvVars (fun n => if n == "HOME" then some "/home/user" else none)
      (.str "x$\x7bHOME\x7d") = .str "x$\x7bHOME\x7d" ∧
    configGet (.dict [("key", .str (envForm "HOME"))]) "key" .null =
      .str (envForm "HOME") :=
  ⟨by decide, rfl,
    (claim8_env_expansion
      (fun n => if n == "HOME" then some "/home/user" else none)
      "HOME" [] [] .null).1 "/home/user" rfl,
    (claim8_env_expansion
      (fun n => if n == "HOME" then some "/home/user" else none)
      "MISSING" [] [] .null).2.1 rfl,
    by simp [expandEnvVars, expandScalar, isEnvForm],
    (claim8_env_expansion
      (fun n => if n == "HOME" then some "/home/user" else none)
      "HOME" [] [] .null).2.2.2.2.2.2⟩

/-! ## Claim C5 -/

/-- Inserting into the newest-first order grows the length by one. -/
theorem insertDesc_length (e : BackupEntry) (l : List BackupEntry) :
    (insertDesc e l).length = l.length + 1 := by
  induction l with
  | nil => rfl
  | cons x xs ih =>
    rw [insertDesc]
    by_cases h : e.created ≤ x.created
    · rw [if_pos h]
      simp [ih]
    · rw [if_neg h]
      simp

/-- Sorting preserves the number of entries. -/
theorem sortDesc_length (l : List BackupEntry) :
    (sortDesc l).length = l.length := by
  induction l with
  | nil => rfl
  | cons x xs ih =>
    rw [sortDesc, insertDesc_length, ih]
    rfl

/-- An entry newer than everything in the list is inserted at the front. -/
theorem insertDesc_of_gt (e : BackupEntry) (l : List BackupEntry)
    (h : ∀ y ∈ l, y.created < e.created) : insertDesc e l = e :: l := by
  cases l with
  | nil => rfl
  | cons y ys =>
    rw [insertDesc, if_neg (not_le.mpr (h y (List.mem_cons_self y ys)))]

/-- An entry no newer than anything in the list is inserted at the back. -/
theorem insertDesc_of_le (e : BackupEntry) (l : List BackupEntry)
    (h : ∀ y ∈ l, e.created ≤ y.created) : insertDesc e l = l ++ [e] := by
  induction l with
  | nil => rfl
  | cons y ys ih =>
    rw [insertDesc, if_pos (h y (List.mem_cons_self y ys)),
      ih (fun z hz => h z (List.mem_cons_of_mem y hz))]
    rfl

/-- Sorting a strictly oldest-first list reverses it. -/
theorem sortDesc_of_asc (l : List BackupEntry)
    (h : l.Pairwise (fun a b => a.created < b.created)) :
    sortDesc l = l.reverse := by
  induction l with
  | nil => rfl
  | cons x xs ih =>
    rw [sortDesc, ih (List.Pairwise.of_cons h), insertDesc_of_le]
    · rw [List.reverse_cons]
    · intro y hy
      exact le_of_lt ((List.pairwise_cons.mp h).1 y (List.mem_reverse.mp hy))

/-- Sorting a strictly newest-first list leaves it unchanged. -/
theorem sortDesc_of_desc (l : List BackupEntry)
    (h : l.Pairwise (fun a b => b.created < a.created)) :
    sortDesc l = l := by
  induction l with
  | nil => rfl
  | cons x xs ih =>
    rw [sortDesc, ih (List.Pairwise.of_cons h),
      insertDesc_of_gt x xs (List.pairwise_cons.mp h).1]

/-- Appending an entry newer than a strictly newest-first list and sorting
puts it at the front. -/
theorem sortDesc_append_newest (l : List BackupEntry) (e : BackupEntry)
    (hsorted : l.Pairwise (fun a b => b.created < a.created))
    (hbig : ∀ x ∈ l, x.created < e.created) :
    sortDesc (l ++ [e]) = e :: l := by
  induction l with
  | nil => rfl
  | cons x xs ih =>
    rw [List.cons_append, sortDesc,
      ih (List.Pairwise.of_cons hsorted)
        (fun z hz => hbig z (List.mem_cons_of_mem x hz)),
      insertDesc, if_pos (le_of_lt (hbig x (List.mem_cons_self x xs))),
      insertDesc_of_gt x xs (List.pairwise_cons.mp hsorted).1]

/-- Strictly increasing snapshot times make the mapped entries strictly
oldest-first. -/
theorem pairwise_asc_map (τ : ℕ → ℚ) (hmono : StrictMono τ) (l : List ℕ)
    (h : l.Pairwise (· < ·)) :
    (l.map (snapEntry τ)).Pairwise (fun a b => a.created < b.created) := by
  rw [List.pairwise_map]
  exact h.imp (fun hab => hmono hab)

/-- Strictly increasing snapshot times make the reversed mapped entries
strictly newest-first. -/
theorem pairwise_desc_reverse_map (τ : ℕ → ℚ) (hmono : StrictMono τ)
    (l : List ℕ) (h : l.Pairwise (· < ·)) :
    ((l.reverse).map (snapEntry τ)).Pairwise
      (fun a b => b.created < a.created) := by
  rw [List.pairwise_map, List.pairwise_reverse]
  exact h.imp (fun hab => hmono hab)

/-- Taking all but the last slot of a reversed list drops its oldest (first)
element. -/
theorem reverse_take_of_length {α : Type} (l : List α) (n : ℕ)
    (h : l.length = n + 1) :
    l.reverse.take n = (l.drop 1).reverse := by
  conv_lhs => rw [← List.take_append_drop 1 l, List.reverse_append]
  rw [List.take_left']
  rw [List.length_reverse, List.length_drop]
  omega

/-- The backup directory after `i` snapshots: while at most `maxBackups`
snapshots have happened the directory holds them all in creation order; once
the cap is exceeded it holds exactly the `maxBackups` newest, newest first. -/
theorem dirAfter_spec (k : ℕ) (τ : ℕ → ℚ) (hmono : StrictMono τ) (i : ℕ) :
    (i ≤ k → dirAfter k τ i = (List.range i).map (snapEntry τ)) ∧
    (k < i → dirAfter k τ i =
      ((List.range i).drop (i - k)).reverse.map (snapEntry τ)) := by
  induction i with
  | zero => exact ⟨fun _ => rfl, fun h => absurd h (Nat.not_lt_zero k)⟩
  | succ i ih =>
    have hmap : (List.range i).map (snapEntry τ) ++ [snapEntry τ i] =
        (List.range (i + 1)).map (snapEntry τ) := by
      rw [List.range_succ, List.map_append]
      rfl
    constructor
    · intro hik
      have hi : i ≤ k := Nat.le_of_succ_le hik
      rw [dirAfter, snapshotStep, ih.1 hi, hmap, cleanupOldBackups,
        if_neg]
      rw [listBackups, sortDesc_length, List.length_map, List.length_range]
      omega
    · intro hki
      have hk_le_i : k ≤ i := Nat.lt_succ_iff.mp hki
      rcases Nat.eq_or_lt_of_le hk_le_i with heq | hlt
      · subst heq
        have hone : k + 1 - k = 1 := by omega
        rw [hone, dirAfter, snapshotStep, ih.1 (le_refl k), hmap,
          cleanupOldBackups, if_pos]
        · rw [listBackups,
            sortDesc_of_asc _ (pairwise_asc_map τ hmono _
              (List.pairwise_lt_range (k + 1))),
            ← List.map_reverse, ← List.map_take,
            reverse_take_of_length _ k (by
              rw [List.length_range]),
            List.map_reverse]
        · rw [listBackups, sortDesc_length, List.length_map,
            List.length_range]
          omega
      · have hD := ih.2 hlt
        have hWpair : ((List.range i).drop (i - k)).Pairwise (· < ·) :=
          (List.pairwise_lt_range i).sublist (List.drop_sublist _ _)
        have hDpair := pairwise_desc_reverse_map τ hmono _ hWpair
        have hDlen : (((List.range i).drop (i - k)).reverse.map
            (snapEntry τ)).length = k := by
          rw [List.length_map, List.length_reverse, List.length_drop,
            List.length_range]
          omega
        have hbig : ∀ x ∈ ((List.range i).drop (i - k)).reverse.map
            (snapEntry τ), x.created < (snapEntry τ i).created := by
          intro x hx
          rw [List.mem_map] at hx
          obtain ⟨j, hj, rfl⟩ := hx
          rw [List.mem_reverse] at hj
          have hji : j < i :=
            List.mem_range.mp ((List.drop_sublist _ _).subset hj)
          exact hmono hji
        rw [dirAfter, snapshotStep, hD, cleanupOldBackups, if_pos]
        · rw [listBackups, sortDesc_append_newest _ _ hDpair hbig]
          rcases k with _ | k'
          · have h0 : (List.range (i + 1)).drop (i + 1 - 0) = [] :=
              List.drop_eq_nil_of_le (by rw [List.length_range]; omega)
            rw [h0]
            rfl
          · have hWlen : ((List.range i).drop (i - (k' + 1))).length =
                k' + 1 := by
              rw [List.length_drop, List.length_range]
              omega
            have harith : (i - (k' + 1)) + 1 = i + 1 - (k' + 1) := by omega
            have hstep : i + 1 - (k' + 1) ≤ (List.range i).length := by
              rw [List.length_range]
              omega
            rw [List.take_succ_cons, ← List.map_take,
              reverse_take_of_length _ k' hWlen, List.drop_drop, harith,
              List.range_succ, List.drop_append_of_le_length hstep,
              List.reverse_append]
            simp
        · rw [listBackups, sortDesc_length, List.length_append, hDlen]
          simp

/-- Claim C5: for every sequence of `N` successful snapshots taken at
strictly increasing creation times with retention cap `maxBackups = k < N`,
after the final snapshot `list_backups` returns exactly `k` records, and they
are the `k` most recently created backups, newest first (pruning deleted the
oldest excess entries by creation time): the listing is precisely the entries
of snapshots `N - k, …, N - 1` in reverse creation order. -/
theorem claim5_retention (k N : ℕ) (τ : ℕ → ℚ) (hmono : StrictMono τ)
    (hkN : k < N) :
    listBackups (dirAfter k τ N) =
      ((List.range N).drop (N - k)).reverse.map (snapEntry τ) ∧
    (listBackups (dirAfter k τ N)).length = k := by
  have hdir := (dirAfter_spec k τ hmono N).2 hkN
  have hsorted : (((List.range N).drop (N - k)).reverse.map
      (snapEntry τ)).Pairwise (fun a b => b.created < a.created) :=
    pairwise_desc_reverse_map τ hmono _
      ((List.pairwise_lt_range N).sublist (List.drop_sublist _ _))
  have hlist : listBackups (dirAfter k τ N) =
      ((List.range N).drop (N - k)).reverse.map (snapEntry τ) := by
    rw [listBackups, hdir, sortDesc_of_desc _ hsorted]
  refine ⟨hlist, ?_⟩
  rw [hlist, List.length_map, List.length_reverse, List.length_drop,
    List.length_range]
  omega

/-- Claim C5, witness: three snapshots at times 0, 1, 2 with `max_backups =
2` leave exactly the two newest backups, newest first. -/
theorem claim5_witness :
    StrictMono (fun i : ℕ => (i : ℚ)) ∧ 2 < 3 ∧
    listBackups (dirAfter 2 (fun i : ℕ => (i : ℚ)) 3) =
      ((List.range 3).drop (3 - 2)).reverse.map
        (snapEntry (fun i : ℕ => (i : ℚ))) ∧
    (listBackups (dirAfter 2 (fun i : ℕ => (i : ℚ)) 3)).length = 2 :=
  ⟨fun a b h => by simpa using (Nat.cast_lt (α := ℚ)).mpr h, by norm_num,
    (claim5_retention 2 3 (fun i : ℕ => (i : ℚ))
      (fun a b h => by simpa using (Nat.cast_lt (α := ℚ)).mpr h) (by norm_num)).1,
    (claim5_retention 2 3 (fun i : ℕ => (i : ℚ))
      (fun a b h => by simpa using (Nat.cast_lt (α := ℚ)).mpr h) (by norm_num)).2⟩

end Aurora
